import Mathlib

/-!
Verification of the MCP-Doc document-editing core against its
natural-language specification.  The Python source under
`src/mcp_doc/tools/` is shallowly embedded: a document is a list of
blocks (paragraphs and tables), paragraph and cell texts are Lean
`String`s, Python string primitives (`in`, `count`, `replace`,
lexicographic `<=`) are reimplemented below with Python's semantics,
and each tool function becomes a pure Lean function from a document
and its arguments to a result message together with the new document
state.
-/

set_option maxRecDepth 4000

namespace MCPDoc

/-! ### Python string primitives -/

/-- Python substring test `pat in s`, on character lists.
`listSub s pat = true` iff `pat` occurs contiguously in `s`
(the empty pattern occurs in every string). -/
def listSub (pat : List Char) : List Char → Bool
  | [] => pat.isEmpty
  | c :: t => pat.isPrefixOf (c :: t) || listSub pat t

/-- Python `pat in s` on strings. -/
def pyContains (s pat : String) : Bool := listSub pat.data s.data

/-- Python `s.startswith(pat)`. -/
def pyStartsWith (s pat : String) : Bool := pat.data.isPrefixOf s.data

/-- Occurrence counter for a non-empty pattern: Python's
left-to-right, non-overlapping `s.count(pat)` scan.  The `fuel`
argument makes the recursion structural; on every step the scanned
list shrinks by at least one character (for a non-empty pattern), so
`fuel = s.length` never runs out before the list empties. -/
def countNE (pat : List Char) : Nat → List Char → Nat
  | _, [] => 0
  | 0, _ :: _ => 0
  | fuel + 1, c :: t =>
    if pat.isPrefixOf (c :: t) && !pat.isEmpty then
      1 + countNE pat fuel (t.drop (pat.length - 1))
    else
      countNE pat fuel t

/-- Python `s.count(pat)`: non-overlapping occurrences; the empty
pattern is counted `len(s) + 1` times. -/
def pyCount (s pat : String) : Nat :=
  if pat.data.isEmpty then s.length + 1 else countNE pat.data s.data.length s.data

/-- Replacement for a non-empty pattern: Python's left-to-right,
non-overlapping `s.replace(pat, r)` scan, with the same fuel scheme
as `countNE`. -/
def replaceNE (pat r : List Char) : Nat → List Char → List Char
  | _, [] => []
  | 0, rest => rest
  | fuel + 1, c :: t =>
    if pat.isPrefixOf (c :: t) && !pat.isEmpty then
      r ++ replaceNE pat r fuel (t.drop (pat.length - 1))
    else
      c :: replaceNE pat r fuel t

/-- Python `s.replace(pat, r)` (replace all occurrences); for the
empty pattern Python interleaves `r` around every character. -/
def pyReplace (s pat r : String) : String :=
  if pat.data.isEmpty then
    ⟨r.data ++ s.data.foldr (fun c acc => c :: (r.data ++ acc)) []⟩
  else
    ⟨replaceNE pat.data r.data s.data.length s.data⟩

/-- Python lexicographic `a <= b` on character lists (code-point
order, a proper prefix is smaller). -/
def lexLe : List Char → List Char → Bool
  | [], _ => true
  | _ :: _, [] => false
  | a :: as, b :: bs =>
    if a.toNat < b.toNat then true
    else if a.toNat = b.toNat then lexLe as bs
    else false

/-- Python `a <= b` on strings. -/
def pyLe (a b : String) : Bool := lexLe a.data b.data

example : pyContains "hello world" "lo w" = true := by decide
example : pyContains "abc" "" = true := by decide
example : pyContains "" "" = true := by decide
example : pyContains "abc" "ac" = false := by decide
example : pyCount "aaaa" "aa" = 2 := by decide
example : pyCount "abc" "" = 4 := by decide
example : pyReplace "aaaa" "aa" "b" = "bb" := by decide
example : pyReplace "abc" "" "-" = "-a-b-c-" := by decide
example : pyLe "Heading 1" "Heading 2" = true := by decide
example : pyLe "Heading 2" "Heading 1" = false := by decide
example : pyLe "Heading 1" "Heading 1" = true := by decide

/-! ### Paragraph model for the section-replacement engine

`content.py` reads, for each body paragraph, its text
(`paragraph.text`) and its style name (`paragraph.style.name`).  The
run-level formatting captured in `original_styles` does not influence
paragraph texts or styles of the result (both the `add_run` branch
and the `p.text = content` branch put the whole line into the
paragraph text), so a paragraph is embedded as text plus style name;
a captured snapshot is `some styleName`, the default snapshot (the
`'style': None` dictionary) is `none`. -/

structure Para where
  text : String
  styleName : String
deriving DecidableEq, Repr

/-- python-docx gives `doc.add_paragraph()` the default "Normal"
style; a `None` snapshot style leaves it in place. -/
def mkNewPara (content : String) (snap : Option String) : Para :=
  { text := content, styleName := snap.getD "Normal" }

/-- Boundary test of `replace_section`'s end-of-section scan
(content.py lines 405-410): style name starts with "Heading" and is
lexicographically `<=` the title's style name, or is the title's
style (python-docx style equality is element identity, which within
one document coincides with style-name equality). -/
def isBoundary (titleStyle : String) (p : Para) : Bool :=
  pyStartsWith p.styleName "Heading" &&
    (pyLe p.styleName titleStyle || p.styleName == titleStyle)

/-- The `for i in range(title_index + 1, len(doc.paragraphs))` scan:
first index at or after `n` (the index of the head of `l` in the full
document) whose paragraph satisfies the boundary test, else the
document length. -/
def endScan (titleStyle : String) : List Para → Nat → Nat
  | [], n => n
  | p :: rest, n =>
    if isBoundary titleStyle p then n else endScan titleStyle rest (n + 1)

/-- End index of the replaceable range in `replace_section`:
`end_index` after the scan loop starting at `title_index + 1`. -/
def endIndexRS (paras : List Para) (titleIdx : Nat) : Nat :=
  let titleStyle := (paras.getD titleIdx ⟨"", ""⟩).styleName
  endScan titleStyle (paras.drop (titleIdx + 1)) (titleIdx + 1)

/-- First index of a paragraph satisfying `p`, if any
(the `title_index = -1` sentinel loop of content.py). -/
def firstIdx (p : Para → Bool) : List Para → Option Nat
  | [] => none
  | a :: rest =>
    if p a then some 0 else (firstIdx p rest).map (· + 1)

/-- One step of the style-capture loop of content.py lines 414-446 /
551-583: capture the style at index `i` if it exists, otherwise
replicate the last captured snapshot (or the default `None`
snapshot). -/
def captureOne (paras : List Para) (acc : List (Option String)) (i : Nat) :
    List (Option String) :=
  match paras.get? i with
  | some pa => acc ++ [some pa.styleName]
  | none =>
    match acc.getLast? with
    | some last => acc ++ [last]
    | none => acc ++ [none]

/-- The capture loop over `range(startDel, min(endIdx, startDel + n))`. -/
def captureRange (paras : List Para) (startDel stop : Nat) : List (Option String) :=
  (List.range' startDel (stop - startDel)).foldl (captureOne paras) []

/-- The `while len(original_styles) < len(new_content)` padding loop:
replicate the last snapshot (or, for an empty capture, the default
`None` snapshot) until `n` snapshots exist.  Each loop iteration
appends the current last element, which stays the same element on
every subsequent iteration, so the loop appends
`n - len(acc)` copies of `acc`'s last element (of `none` when `acc`
is empty). -/
def padSnaps (n : Nat) (acc : List (Option String)) : List (Option String) :=
  acc ++ List.replicate (n - acc.length) (acc.getLast?.getD none)

/-- Captured-and-padded snapshot list for a replacement of `n` lines
reading styles from `[startDel, endIdx)`. -/
def snapshots (paras : List Para) (startDel endIdx n : Nat) :
    List (Option String) :=
  padSnaps n (captureRange paras startDel (min endIdx (startDel + n)))

/-- Insert `x` at position `i`, appending at the end when `i`
exceeds the length — the behaviour of lxml's `insert`. -/
def insAt (i : Nat) (x : α) (l : List α) : List α :=
  l.take i ++ [x] ++ l.drop i

/-- All elements but the last — the
`doc._body._body.remove(doc.paragraphs[-1]._p)` step. -/
def dropLastP (l : List α) : List α := l.take (l.length - 1)

/-- One iteration of the insertion loop of content.py lines 468-508:
`doc.add_paragraph()` appends the new paragraph at the end of the
body; `doc._body._body.insert(insert_position, p._p)` MOVES that
element (lxml elements have a single parent) to `insert_position`;
`doc._body._body.remove(doc.paragraphs[-1]._p)` then removes the
paragraph that is last after the move.  Since the appended paragraph
was moved away from the end, appending and moving collapse to a
plain insert at `pos`, and the removal drops the final paragraph of
the resulting list. -/
def insStep (pos : Nat) (st : List Para) (p : Para) : List Para :=
  dropLastP (insAt pos p st)

/-- The full insertion loop: iterate over `reversed(new_content)`,
pairing index `i` with snapshot `len(new_content) - i - 1`, i.e. over
the reversed zip of contents with snapshots. -/
def insLoop (pos : Nat) (contents : List String)
    (snaps : List (Option String)) (st : List Para) : List Para :=
  ((contents.zip snaps).reverse).foldl
    (fun acc cs => insStep pos acc (mkNewPara cs.1 cs.2)) st

/-- Result messages of `replace_section`. -/
inductive RSMsg where
  | titleNotFound (title : String)
  | replaced (title : String)
deriving DecidableEq, Repr

/-- `replace_section(section_title, new_content, preserve_title)`
from content.py lines 376-515, on a table-free document body. -/
def replace_section (doc : List Para) (sectionTitle : String)
    (newContent : List String) (preserveTitle : Bool) : RSMsg × List Para :=
  match firstIdx (fun p => pyContains p.text sectionTitle) doc with
  | none => (.titleNotFound sectionTitle, doc)
  | some titleIdx =>
    let endIdx := endIndexRS doc titleIdx
    let startDel := titleIdx + (if preserveTitle then 1 else 0)
    let snaps := snapshots doc startDel endIdx newContent.length
    let afterDel := doc.take startDel ++ doc.drop endIdx
    (.replaced sectionTitle, insLoop startDel newContent snaps afterDel)

/-- Result messages of `edit_section_by_keyword`. -/
inductive KWMsg where
  | keywordNotFound (kw : String)
  | replaced (kw : String)
deriving DecidableEq, Repr

/-- `edit_section_by_keyword(keyword, new_content, section_range)`
from content.py lines 518-652, on a table-free document body.  Range
resolution: first paragraph containing the keyword, then
`[max(0, k - r), min(len, k + r + 1))`; deletion and insertion use
the same machinery as `replace_section`. -/
def edit_section_by_keyword (doc : List Para) (keyword : String)
    (newContent : List String) (sectionRange : Int) : KWMsg × List Para :=
  match firstIdx (fun p => pyContains p.text keyword) doc with
  | none => (.keywordNotFound keyword, doc)
  | some kwIdx =>
    let startIdx := (max 0 ((kwIdx : Int) - sectionRange)).toNat
    let endIdx := (min (doc.length : Int) ((kwIdx : Int) + sectionRange + 1)).toNat
    let snaps := snapshots doc startIdx endIdx newContent.length
    -- the descending deletion loop `range(end_index - 1, start_index - 1, -1)`
    -- deletes nothing when `end_index <= start_index` (possible for a
    -- negative radius), hence the clamp of the drop index
    let afterDel := doc.take startIdx ++ doc.drop (max startIdx endIdx)
    (.replaced keyword, insLoop startIdx newContent snaps afterDel)

/-- The C1 scenario document. -/
def c1doc : List Para :=
  [⟨"Title A", "Heading 1"⟩, ⟨"Hello", "Normal"⟩,
   ⟨"Title B", "Heading 1"⟩, ⟨"World", "Normal"⟩]

example :
    (replace_section c1doc "Title A" ["NewLine1", "NewLine2"] true).2.map Para.text
      = ["Title A", "NewLine1", "NewLine2"] := by decide

example :
    (edit_section_by_keyword [⟨"K", "Normal"⟩, ⟨"X", "Normal"⟩] "K" ["N"] 0).2.map Para.text
      = ["N"] := by decide

/-! ### Search engine model

For the search tools only texts matter: a document is its list of
body-paragraph texts plus its tables.  A table is modelled the way
python-docx presents it to the loops of `content.py`: the distinct
underlying `w:tc` cell elements form a `store` (a cell being the
texts of its nested paragraphs), and the grid assigns to every grid
position (row, column) the store index of the cell there.
`row.cells` yields, for every grid column, the cell at that
position: for merged cells (`gridSpan`/`vMerge`, producible with
`merge_table_cells` or by opening a document) the SAME underlying
cell appears at several grid positions, so a scan that mutates cells
can revisit a cell it has already rewritten.  A table without merged
cells has pairwise distinct store indices in its grid. -/

/-- A table cell: the texts of its paragraphs. -/
abbrev SCell := List String

/-- python-docx `cell.text`: paragraph texts joined by newlines. -/
def cellText (c : SCell) : String := String.intercalate "\n" c

/-- A table: the distinct underlying cells, and, for each row, the
store index of the cell at each grid column (what `row.cells`
returns, with repetitions for merged cells). -/
structure ATable where
  store : List SCell
  grid : List (List Nat)
deriving DecidableEq, Repr

/-- Document state seen by the search tools. -/
structure SDoc where
  paras : List String
  tables : List ATable
deriving DecidableEq, Repr

/-- A document is alias-free when no table has a merged cell: every
grid position of each table holds a distinct underlying cell. -/
def aliasFree (doc : SDoc) : Prop :=
  ∀ tb ∈ doc.tables, tb.grid.flatten.Nodup

instance (doc : SDoc) : Decidable (aliasFree doc) :=
  inferInstanceAs (Decidable (∀ tb ∈ doc.tables, tb.grid.flatten.Nodup))

/-- One reported match of `search_and_replace`: location
discriminator, original text, replaced text, occurrence count. -/
inductive SRRes where
  | para (i : Nat) (original replaced : String) (cnt : Nat)
  | cell (t r c : Nat) (original replaced : String) (cnt : Nat)
deriving DecidableEq, Repr

/-- Paragraph phase of `search_and_replace` (content.py lines
252-268): visit each paragraph once in order; on a match record
original, replaced and `original.count(keyword)`, and rewrite the
paragraph unless previewing.  Each paragraph is visited exactly once
and only the visited paragraph is mutated, so the sequential loop is
this one-pass recursion. -/
def srParas (preview : Bool) (kw rep : String) :
    Nat → List String → List SRRes × List String
  | _, [] => ([], [])
  | i, t :: rest =>
    let tail := srParas preview kw rep (i + 1) rest
    if pyContains t kw then
      let repl := pyReplace t kw rep
      (.para i t repl (pyCount t kw) :: tail.1,
        (if preview then t else repl) :: tail.2)
    else (tail.1, t :: tail.2)

/-- Cell visit of `search_and_replace` (content.py lines 273-293):
the cell at store index `cid` is read from the CURRENT store; the
report is built from `cell.text`; the commit rewrites each paragraph
of the cell that contains the keyword, writing the cell back.  A
merged cell is visited once per grid position it spans, and a later
visit sees the text the earlier one wrote. -/
def srCell (preview : Bool) (kw rep : String) (ti ri ci : Nat)
    (store : List SCell) (cid : Nat) : List SRRes × List SCell :=
  let cell := store.getD cid []
  let ct := cellText cell
  if pyContains ct kw then
    ([.cell ti ri ci ct (pyReplace ct kw rep) (pyCount ct kw)],
      if preview then store
      else store.set cid
        (cell.map fun pt => if pyContains pt kw then pyReplace pt kw rep else pt))
  else ([], store)

/-- Column scan within a row
(`for c_idx, cell in enumerate(row.cells)`), threading the store. -/
def srRow (preview : Bool) (kw rep : String) (ti ri : Nat) :
    Nat → List Nat → List SCell → List SRRes × List SCell
  | _, [], store => ([], store)
  | ci, cid :: rest, store =>
    let here := srCell preview kw rep ti ri ci store cid
    let tail := srRow preview kw rep ti ri (ci + 1) rest here.2
    (here.1 ++ tail.1, tail.2)

/-- Row scan within a table. -/
def srTable (preview : Bool) (kw rep : String) (ti : Nat) :
    Nat → List (List Nat) → List SCell → List SRRes × List SCell
  | _, [], store => ([], store)
  | ri, row :: rest, store =>
    let here := srRow preview kw rep ti ri 0 row store
    let tail := srTable preview kw rep ti (ri + 1) rest here.2
    (here.1 ++ tail.1, tail.2)

/-- One table of the document under `search_and_replace`. -/
def srTableTop (preview : Bool) (kw rep : String) (ti : Nat) (tb : ATable) :
    List SRRes × ATable :=
  let res := srTable preview kw rep ti 0 tb.grid tb.store
  (res.1, ⟨res.2, tb.grid⟩)

/-- Table scan of the document. -/
def srTables (preview : Bool) (kw rep : String) :
    Nat → List ATable → List SRRes × List ATable
  | _, [] => ([], [])
  | ti, tb :: rest =>
    let here := srTableTop preview kw rep ti tb
    let tail := srTables preview kw rep (ti + 1) rest
    (here.1 ++ tail.1, here.2 :: tail.2)

/-- `search_and_replace(keyword, replace_with, preview_only)` from
content.py lines 236-336: the reported match list (paragraph matches
then table-cell matches, in scan order) together with the resulting
document.  The textual response is a rendering of this list (with
50-character excerpts) and of the total count
`sum(item["count"])`. -/
def search_and_replace (doc : SDoc) (kw rep : String) (previewOnly : Bool) :
    List SRRes × SDoc :=
  let pPhase := srParas previewOnly kw rep 0 doc.paras
  let tPhase := srTables previewOnly kw rep 0 doc.tables
  (pPhase.1 ++ tPhase.1, ⟨pPhase.2, tPhase.2⟩)

/-- Paragraph loop of `find_and_replace` (content.py lines 354-358,
and lines 363-367 for the paragraphs of a table cell, which use the
identical loop body): on a match, rewrite the paragraph and add the
count of the REPLACEMENT string in the post-replacement text. -/
def farParas (f r : String) : List String → Nat × List String
  | [] => (0, [])
  | t :: rest =>
    let tail := farParas f r rest
    if pyContains t f then
      let nt := pyReplace t f r
      (pyCount nt r + tail.1, nt :: tail.2)
    else (tail.1, t :: tail.2)

/-- Cell visit of `find_and_replace`: the per-paragraph loop applied
to the cell's paragraphs as currently in the store, written back.  A
merged cell is visited once per grid position it spans. -/
def farCell (f r : String) (store : List SCell) (cid : Nat) : Nat × List SCell :=
  let res := farParas f r (store.getD cid [])
  (res.1, store.set cid res.2)

/-- Cells of a row under `find_and_replace`, threading the store. -/
def farRow (f r : String) : List Nat → List SCell → Nat × List SCell
  | [], store => (0, store)
  | cid :: rest, store =>
    let here := farCell f r store cid
    let tail := farRow f r rest here.2
    (here.1 + tail.1, tail.2)

/-- Rows of a table under `find_and_replace`. -/
def farTable (f r : String) : List (List Nat) → List SCell → Nat × List SCell
  | [], store => (0, store)
  | row :: rest, store =>
    let here := farRow f r row store
    let tail := farTable f r rest here.2
    (here.1 + tail.1, tail.2)

/-- One table of the document under `find_and_replace`. -/
def farTableTop (f r : String) (tb : ATable) : Nat × ATable :=
  let res := farTable f r tb.grid tb.store
  (res.1, ⟨res.2, tb.grid⟩)

/-- Tables of the document under `find_and_replace`. -/
def farTables (f r : String) : List ATable → Nat × List ATable
  | [] => (0, [])
  | tb :: rest =>
    let here := farTableTop f r tb
    let tail := farTables f r rest
    (here.1 + tail.1, here.2 :: tail.2)

/-- `find_and_replace(find_text, replace_text)` from content.py lines
339-373: total count and resulting document. -/
def find_and_replace (doc : SDoc) (f r : String) : Nat × SDoc :=
  let pPhase := farParas f r doc.paras
  let tPhase := farTables f r doc.tables
  (pPhase.1 + tPhase.1, ⟨pPhase.2, tPhase.2⟩)

/-- One reported match of `search_text`. -/
inductive STRes where
  | para (i : Nat) (text : String)
  | cell (t r c : Nat) (text : String)
deriving DecidableEq, Repr

/-- Paragraph scan of `search_text` (content.py lines 190-196).  The
document state is threaded through the scan exactly as the loop
sees it, so that leaving it unchanged is a property of the
definition rather than an assumption. -/
def stParas (kw : String) : Nat → List String → List STRes × List String
  | _, [] => ([], [])
  | i, t :: rest =>
    let tail := stParas kw (i + 1) rest
    ((if pyContains t kw then [.para i t] else []) ++ tail.1, t :: tail.2)

/-- Cell visit of `search_text` (content.py lines 199-209). -/
def stCell (kw : String) (ti ri ci : Nat) (store : List SCell) (cid : Nat) :
    List STRes :=
  if pyContains (cellText (store.getD cid [])) kw then
    [.cell ti ri ci (cellText (store.getD cid []))]
  else []

/-- Cell scan of one row under `search_text`. -/
def stRow (kw : String) (ti ri : Nat) :
    Nat → List Nat → List SCell → List STRes × List SCell
  | _, [], store => ([], store)
  | ci, cid :: rest, store =>
    let tail := stRow kw ti ri (ci + 1) rest store
    (stCell kw ti ri ci store cid ++ tail.1, tail.2)

/-- Row scan of one table under `search_text`. -/
def stTable (kw : String) (ti : Nat) :
    Nat → List (List Nat) → List SCell → List STRes × List SCell
  | _, [], store => ([], store)
  | ri, row :: rest, store =>
    let here := stRow kw ti ri 0 row store
    let tail := stTable kw ti (ri + 1) rest here.2
    (here.1 ++ tail.1, tail.2)

/-- One table under `search_text`. -/
def stTableTop (kw : String) (ti : Nat) (tb : ATable) : List STRes × ATable :=
  let res := stTable kw ti 0 tb.grid tb.store
  (res.1, ⟨res.2, tb.grid⟩)

/-- Table scan under `search_text`. -/
def stTables (kw : String) : Nat → List ATable → List STRes × List ATable
  | _, [] => ([], [])
  | ti, tb :: rest =>
    let here := stTableTop kw ti tb
    let tail := stTables kw (ti + 1) rest
    (here.1 ++ tail.1, here.2 :: tail.2)

/-- `search_text(keyword)` from content.py lines 175-233: the
collected match list (the textual response is a rendering of it,
or a not-found message when it is empty) and the document as the
scan leaves it. -/
def search_text (doc : SDoc) (kw : String) : List STRes × SDoc :=
  let pPhase := stParas kw 0 doc.paras
  let tPhase := stTables kw 0 doc.tables
  (pPhase.1 ++ tPhase.1, ⟨pPhase.2, tPhase.2⟩)

/-- Result messages of `delete_text`, one constructor per return
site of content.py lines 137-172. -/
inductive DTMsg where
  | paraIdxOut (p : Int) (n : Nat)
  | startOut (s : Int) (len : Nat)
  | endInvalid (e s : Int) (len : Nat)
  | deleted (s e p : Int)
deriving DecidableEq, Repr

/-- Whether a `delete_text` result message reports a failure. -/
def DTMsg.isErr : DTMsg → Bool
  | .deleted .. => false
  | _ => true

/-- `delete_text(paragraph_index, start_pos, end_pos)` from
content.py lines 137-172, on the list of body-paragraph texts.
Python's `text[:start_pos] + text[end_pos:]` becomes
character-level take and drop. -/
def delete_text (doc : List String) (p s e : Int) : DTMsg × List String :=
  if p < 0 ∨ (doc.length : Int) ≤ p then (.paraIdxOut p doc.length, doc)
  else
    let text := doc.getD p.toNat ""
    if s < 0 ∨ (text.length : Int) ≤ s then (.startOut s text.length, doc)
    else if e ≤ s ∨ (text.length : Int) < e then (.endInvalid e s text.length, doc)
    else (.deleted s e p, doc.set p.toNat (text.take s.toNat ++ text.drop e.toNat))

example :
    delete_text ["abcdef"] 0 1 3 = (.deleted 1 3 0, ["adef"]) := by decide
example :
    (delete_text ["abcdef"] 0 3 2).2 = ["abcdef"] := by decide

/-! ### Table model for the structural table operations

For `split_table` the XML child structure of a table element matters,
so a `w:tbl` element is embedded as its ordered list of children: a
`w:tblPr` element carrying its property children, a `w:tblGrid`
element carrying its `w:gridCol` children, `w:tr` row elements (a
row being its cells, a cell its paragraph texts), and `loose` for a
bare element sitting directly under `w:tbl` outside any wrapper —
which is where the split's copy loops put the copied property and
grid children.  The document body is the ordered list of blocks;
`doc.tables` enumerates the table blocks in body order. -/

/-- A table row: its cells, each cell its paragraph texts. -/
abbrev XRow := List (List String)

/-- A child of a `w:tbl` element. -/
inductive TblChild where
  | pr (children : List String)
  | grid (children : List String)
  | tr (row : XRow)
  | loose (el : String)
deriving DecidableEq, Repr

/-- A table element: its ordered children. -/
structure XTable where
  children : List TblChild
deriving DecidableEq, Repr

/-- The children of the first `w:tblPr` child, if any — what
`tbl.xpath('./w:tblPr')[0].getchildren()` reads (`none` is the
IndexError path). -/
def firstPr : List TblChild → Option (List String)
  | [] => none
  | .pr cs :: _ => some cs
  | _ :: rest => firstPr rest

/-- The children of the first `w:tblGrid` child, if any. -/
def firstGrid : List TblChild → Option (List String)
  | [] => none
  | .grid cs :: _ => some cs
  | _ :: rest => firstGrid rest

/-- `table.rows` / `tbl.xpath('./w:tr')`: the `w:tr` children in
order. -/
def trsOf (t : XTable) : List XRow :=
  t.children.filterMap fun c => match c with | .tr r => some r | _ => none

/-- Remove from a child list every `w:tr` whose row index is at least
`sp`, keeping everything else: the effect on the original table of
moving rows `sp, sp+1, …` out (lxml `append` on another element
moves a node away from its parent). -/
def keepTrsBelow (sp : Nat) : List TblChild → List TblChild
  | [] => []
  | .tr r :: rest =>
    if sp = 0 then keepTrsBelow 0 rest
    else .tr r :: keepTrsBelow (sp - 1) rest
  | c :: rest => c :: keepTrsBelow sp rest

/-- A body-level block: paragraph or table. -/
inductive Block where
  | par (p : Para)
  | tbl (t : XTable)
deriving DecidableEq, Repr

/-- `doc.tables`: the table blocks in body order. -/
def tablesOf (d : List Block) : List XTable :=
  d.filterMap fun b => match b with | .tbl t => some t | .par _ => none

/-- Replace the `k`-th table block (counting tables only) by the two
blocks `a` then `b`, leaving everything else in place: the in-place
row move on the original table followed by `tbl.addnext(new_tbl)`,
which inserts the new table as the immediately following sibling. -/
def splitNthTbl : List Block → Nat → XTable → XTable → List Block
  | [], _, _, _ => []
  | .par p :: rest, k, a, b => .par p :: splitNthTbl rest k a b
  | .tbl _ :: rest, 0, a, b => .tbl a :: .tbl b :: rest
  | .tbl t :: rest, k + 1, a, b => .tbl t :: splitNthTbl rest k a b

/-- Result messages of `split_table`: one constructor per return site
of table.py lines 213-268, plus the two exception paths of the copy
phase, both surfaced by the generic handler as the failure
message. -/
inductive SPMsg where
  | noTables
  | tblIdxOut (ti : Int) (n : Nat)
  | rowIdxInvalid (ri : Int) (rows : Nat)
  | copyFailed
  | xpathFailed
  | split (ti ri : Int)
deriving DecidableEq, Repr

/-- Whether a `split_table` result message reports a failure. -/
def SPMsg.isErr : SPMsg → Bool
  | .split .. => false
  | _ => true

/-- `split_table(table_index, row_index)` from table.py lines
213-268.  After the bounds checks, a detached empty `w:tbl` is
created and the code runs `new_tbl.append(child.copy())` over the
children of the original's `w:tblPr`, then of its `w:tblGrid`: the
copies are appended DIRECTLY under the new `w:tbl`, with no
`w:tblPr`/`w:tblGrid` wrapper elements, so the new table has no
recognized table-level properties and no column grid.  Moreover lxml
elements expose no `.copy()` method (copies are made with
`copy.deepcopy`), so whether the `child.copy()` call itself succeeds
is a property of the element class, taken here as the parameter
`copyOk`: when the call raises `AttributeError` (the behaviour of
stock lxml/python-docx elements, raised at the first copied child,
before any row is moved and before the new table is attached), the
generic handler returns the failure message and the document is
unchanged.  `tbl.xpath('./w:tblPr')[0]` raises IndexError when the
table lacks the wrapper (`xpathFailed`).  Rows from `row_index + 1`
on are MOVED into the new table in order (the `xpath` snapshot is
taken before the moves), and `tbl.addnext` inserts the new table
immediately after the original. -/
def split_table (copyOk : Bool) (d : List Block) (ti ri : Int) :
    SPMsg × List Block :=
  let ts := tablesOf d
  if ts.isEmpty then (.noTables, d)
  else if ti < 0 ∨ (ts.length : Int) ≤ ti then (.tblIdxOut ti ts.length, d)
  else
    let t := ts.getD ti.toNat ⟨[]⟩
    let rows := trsOf t
    if ri < 0 ∨ (rows.length : Int) - 1 ≤ ri then
      (.rowIdxInvalid ri rows.length, d)
    else
      match firstPr t.children, firstGrid t.children with
      | some prCh, some grCh =>
        if copyOk || (prCh.isEmpty && grCh.isEmpty) then
          let sp := ri.toNat + 1
          let newT : XTable :=
            ⟨prCh.map TblChild.loose ++ grCh.map TblChild.loose
              ++ (rows.drop sp).map TblChild.tr⟩
          let t' : XTable := ⟨keepTrsBelow sp t.children⟩
          (.split ti ri, splitNthTbl d ti.toNat t' newT)
        else (.copyFailed, d)
      | _, _ => (.xpathFailed, d)

/-- Result messages of `merge_table_cells`, one constructor per
return site of table.py lines 155-210. -/
inductive MGMsg where
  | noTables
  | tblIdxOut (ti : Int) (n : Nat)
  | startRowOut (r : Int) (rows : Nat)
  | startColOut (c : Int) (cols : Nat)
  | endRowInvalid (r : Int) (startRow : Int) (rows : Nat)
  | endColInvalid (c : Int) (startCol : Int) (cols : Nat)
  | merged (sr sc er ec : Int)
deriving DecidableEq, Repr

/-- Whether a `merge_table_cells` result message reports a failure. -/
def MGMsg.isErr : MGMsg → Bool
  | .merged .. => false
  | _ => true

/-- A table as `merge_table_cells` measures it: `len(table.rows)`
rows and `len(table.columns)` columns (the latter comes from the
column grid), plus the cell grid. -/
structure MTable where
  cols : Nat
  rows : List XRow
deriving DecidableEq, Repr

/-- `merge_table_cells(table_index, start_row, start_col, end_row,
end_col)` from table.py lines 155-210.  The merge itself,
`start_cell.merge(end_cell)`, is performed by python-docx, outside
this repository; it is taken as an arbitrary table transformation
`mergeFn`, applied only after every bounds check has passed. -/
def merge_table_cells (mergeFn : MTable → Nat → Nat → Nat → Nat → MTable)
    (tables : List MTable) (ti sr sc er ec : Int) : MGMsg × List MTable :=
  if tables.isEmpty then (.noTables, tables)
  else if ti < 0 ∨ (tables.length : Int) ≤ ti then
    (.tblIdxOut ti tables.length, tables)
  else
    let t := tables.getD ti.toNat ⟨0, []⟩
    if sr < 0 ∨ (t.rows.length : Int) ≤ sr then
      (.startRowOut sr t.rows.length, tables)
    else if sc < 0 ∨ (t.cols : Int) ≤ sc then
      (.startColOut sc t.cols, tables)
    else if er < sr ∨ (t.rows.length : Int) ≤ er then
      (.endRowInvalid er sr t.rows.length, tables)
    else if ec < sc ∨ (t.cols : Int) ≤ ec then
      (.endColInvalid ec sc t.cols, tables)
    else
      (.merged sr sc er ec,
        tables.set ti.toNat (mergeFn t sr.toNat sc.toNat er.toNat ec.toNat))

/-! ### `add_paragraph` model (content.py lines 13-82)

Here run-level formatting matters, so a run carries its tri-state
formatting attributes.  `doc.add_paragraph(text)` creates a
paragraph with a single run holding `text` when `text` is non-empty
and with no runs otherwise; the formatting block runs only when the
paragraph has runs. -/

/-- Paragraph alignment values of the `alignment` argument. -/
inductive Align where
  | left | center | right | justify
deriving DecidableEq, Repr

/-- A text run with its formatting attributes. -/
structure Run6 where
  rtext : String
  bold : Option Bool := none
  italic : Option Bool := none
  underline : Option Bool := none
  size : Option Int := none
  fname : Option String := none
  eastAsia : Option String := none
  color : Option (Int × Int × Int) := none
deriving DecidableEq, Repr

/-- A paragraph as `add_paragraph` builds it. -/
structure Para6 where
  text : String
  runs : List Run6
  align : Option Align := none
deriving DecidableEq, Repr

/-- Result messages of `add_paragraph`. -/
inductive APMsg where
  | added
  | failed
deriving DecidableEq, Repr

/-- Python truthiness of an optional int (`if font_size:`):
`None` and `0` are falsy. -/
def truthyInt : Option Int → Bool
  | none => false
  | some n => n != 0

/-- Python truthiness of an optional string (`if font_name:` /
`if color:`): `None` and the empty string are falsy. -/
def truthyStr : Option String → Bool
  | none => false
  | some s => !s.isEmpty

/-- The guard of content.py line 61:
`color and color.startswith('#') and len(color) == 7`. -/
def colorGate (c : Option String) : Bool :=
  match c with
  | none => false
  | some s => !s.isEmpty && pyStartsWith s "#" && s.length == 7

/-- The three channel parses of content.py lines 62-65,
`int(color[1:3], 16)` etc., followed by the range validation that
`RGBColor` performs; `hexFn` is Python's `int(., 16)` on
two-character strings, a Python builtin outside this repository,
taken as a parameter.  `none` is the exception path. -/
def parseRGB (hexFn : String → Option Int) (s : String) :
    Option (Int × Int × Int) :=
  match hexFn ((s.drop 1).take 2), hexFn ((s.drop 3).take 2),
      hexFn ((s.drop 5).take 2) with
  | some r, some g, some b =>
    if 0 ≤ r ∧ r ≤ 255 ∧ 0 ≤ g ∧ g ≤ 255 ∧ 0 ≤ b ∧ b ≤ 255 then
      some (r, g, b)
    else none
  | _, _, _ => none

/-- The run-formatting steps of content.py lines 44-58 applied to the
single run `doc.add_paragraph(text)` creates for non-empty `text`:
`run.bold/italic/underline` are set unconditionally, then size and
font under Python-truthiness guards (`if font_size:`,
`if font_name:`, the latter also setting the East-Asian font). -/
def addFmtRun (text : String) (bold italic underline : Bool)
    (fontSize : Option Int) (fontName : Option String) : Run6 :=
  let r1 : Run6 := { rtext := text, bold := some bold, italic := some italic,
                     underline := some underline }
  let r2 := if truthyInt fontSize then { r1 with size := fontSize } else r1
  if truthyStr fontName then { r2 with fname := fontName, eastAsia := fontName }
  else r2

/-- `add_paragraph(text, bold, italic, underline, font_size,
font_name, color, alignment)` from content.py lines 13-82.
`doc.add_paragraph(text)` appends the paragraph FIRST, with one run
when `text` is non-empty and none otherwise; with no runs the whole
formatting block (lines 44-65) is skipped.  A `ValueError` raised
while parsing the color is caught by the outer handler, which
returns the failure message with the paragraph already added and
partially formatted (bold/italic/underline, size and font applied;
color and alignment not). -/
def add_paragraph (hexFn : String → Option Int) (doc : List Para6)
    (text : String) (bold italic underline : Bool)
    (fontSize : Option Int) (fontName : Option String)
    (color : Option String) (alignment : Option Align) : APMsg × List Para6 :=
  if text.isEmpty then
    (.added, doc ++ [{ text := text, runs := [], align := alignment }])
  else
    let r3 := addFmtRun text bold italic underline fontSize fontName
    if colorGate color then
      match parseRGB hexFn (color.getD "") with
      | some rgb =>
        (.added, doc ++ [{ text := text, runs := [{ r3 with color := some rgb }],
                           align := alignment }])
      | none =>
        -- exception: paragraph already added, color and alignment not applied
        (.failed, doc ++ [{ text := text, runs := [r3], align := none }])
    else
      (.added, doc ++ [{ text := text, runs := [r3], align := alignment }])

/-- ASCII hexadecimal digit value. -/
def hexDigit : Char → Option Nat
  | c =>
    if '0' ≤ c ∧ c ≤ '9' then some (c.toNat - '0'.toNat)
    else if 'a' ≤ c ∧ c ≤ 'f' then some (c.toNat - 'a'.toNat + 10)
    else if 'A' ≤ c ∧ c ≤ 'F' then some (c.toNat - 'A'.toNat + 10)
    else none

/-- Python `int(s, 16)` restricted to plain two-hex-digit strings
(the shape the specification prescribes for a colour channel:
"two hex digits per channel"); anything else is the exception
path. -/
def hexPair (s : String) : Option Int :=
  match s.data with
  | [c1, c2] =>
    match hexDigit c1, hexDigit c2 with
    | some h1, some h2 => some ((16 * h1 + h2 : Nat) : Int)
    | _, _ => none
  | _ => none

example : hexPair "ff" = some 255 := by decide
example : hexPair "0A" = some 10 := by decide
example : hexPair "G0" = none := by decide
example :
    (add_paragraph hexPair [] "Hello" false false false none none
      (some "red") none).1 = .added := by decide
example :
    (add_paragraph hexPair [] "Hi" true false false none none
      (some "#12fF34") none).2.map (fun p => p.runs.map Run6.color)
      = [[some (0x12, 0xff, 0x34)]] := by decide

/-! ## Claim theorems -/

/-- C1: on the document `["Title A" (Heading 1), "Hello",
"Title B" (Heading 1), "World"]`, the call
`replace_section("Title A", ["NewLine1","NewLine2"], preserve_title=True)`
reports success but produces the paragraph texts
`["Title A", "NewLine1", "NewLine2"]`, not the
`["Title A", "NewLine1", "NewLine2", "Title B", "World"]` the claim
states: the insertion loop's lxml `insert` MOVES the freshly appended
paragraph away from the end of the body, so the subsequent
`remove(doc.paragraphs[-1])` deletes a pre-existing trailing
paragraph ("World", then "Title B") instead of the duplicate the
code's comment says it removes. -/
theorem C1_replace_section_scenario :
    (replace_section c1doc "Title A" ["NewLine1", "NewLine2"] true).1
        = RSMsg.replaced "Title A" ∧
    (replace_section c1doc "Title A" ["NewLine1", "NewLine2"] true).2.map Para.text
        = ["Title A", "NewLine1", "NewLine2"] ∧
    (replace_section c1doc "Title A" ["NewLine1", "NewLine2"] true).2.map Para.text
        ≠ ["Title A", "NewLine1", "NewLine2", "Title B", "World"] := by
  decide

/-- C8: with paragraphs `["K", "X"]`, keyword "K", radius 0 and new
content `["N"]`, the resolved range is `[0, 1)`, so exactly paragraph
0 should be replaced and the result should be `["N", "X"]`; the code
instead yields `["N"]` — the paragraph "X", outside the resolved
range, is deleted by the same insertion defect as in
`replace_section` (the trailing `remove(doc.paragraphs[-1])` removes
a pre-existing paragraph after lxml's `insert` moved the new one).
The keyword-not-found path does return an error and leave the
document unchanged. -/
theorem C8_edit_section_by_keyword_eval :
    edit_section_by_keyword [⟨"K", "Normal"⟩, ⟨"X", "Normal"⟩] "K" ["N"] 0
        = (KWMsg.replaced "K", [⟨"N", "Normal"⟩]) ∧
    edit_section_by_keyword [⟨"K", "Normal"⟩, ⟨"X", "Normal"⟩] "Z" ["N"] 0
        = (KWMsg.keywordNotFound "Z", [⟨"K", "Normal"⟩, ⟨"X", "Normal"⟩]) := by
  decide

/-- C4: `delete_text(p, s, e)` with `e ≤ s`, or with `s` outside
`[0, len(text of paragraph p))`, returns an error message and leaves
every paragraph exactly as it was. -/
theorem C4_delete_text_invalid_range (doc : List String) (p s e : Int)
    (h : e ≤ s ∨ s < 0 ∨ ((doc.getD p.toNat "").length : Int) ≤ s) :
    (delete_text doc p s e).1.isErr = true ∧ (delete_text doc p s e).2 = doc := by
  unfold delete_text
  dsimp only
  split
  · exact ⟨rfl, rfl⟩
  · split
    · exact ⟨rfl, rfl⟩
    · split
      · exact ⟨rfl, rfl⟩
      · rename_i h1 h2 h3
        exact absurd h (by omega)

/-- Witness for C4 at a concrete input: `e = 1 ≤ s = 2`. -/
theorem C4_delete_text_invalid_range_witness :
    (delete_text ["abc"] 0 2 1).1.isErr = true ∧
    (delete_text ["abc"] 0 2 1).2 = ["abc"] :=
  C4_delete_text_invalid_range ["abc"] 0 2 1 (Or.inl (by decide))

/-- C5: `merge_table_cells` with `end_row < start_row` or
`end_col < start_col` returns an error message and leaves every table
(rows, columns, cells, texts) unchanged, whatever transformation the
underlying cell merge would perform: every bounds check precedes the
merge, and a range with inverted corners fails one of them. -/
theorem C5_merge_table_cells_inverted_range
    (mergeFn : MTable → Nat → Nat → Nat → Nat → MTable)
    (tables : List MTable) (ti sr sc er ec : Int)
    (h : er < sr ∨ ec < sc) :
    (merge_table_cells mergeFn tables ti sr sc er ec).1.isErr = true ∧
    (merge_table_cells mergeFn tables ti sr sc er ec).2 = tables := by
  unfold merge_table_cells
  dsimp only
  split
  · exact ⟨rfl, rfl⟩
  · split
    · exact ⟨rfl, rfl⟩
    · split
      · exact ⟨rfl, rfl⟩
      · split
        · exact ⟨rfl, rfl⟩
        · split
          · exact ⟨rfl, rfl⟩
          · split
            · exact ⟨rfl, rfl⟩
            · rename_i h1 h2 h3 h4 h5 h6
              exact absurd h (by omega)

/-- Witness for C5 at a concrete input: `end_row = 0 < start_row = 1`. -/
theorem C5_merge_table_cells_inverted_range_witness :
    (merge_table_cells (fun t _ _ _ _ => t)
        [⟨2, [[["a"], ["b"]], [["c"], ["d"]]]⟩] 0 1 0 0 1).1.isErr = true ∧
    (merge_table_cells (fun t _ _ _ _ => t)
        [⟨2, [[["a"], ["b"]], [["c"], ["d"]]]⟩] 0 1 0 0 1).2
      = [⟨2, [[["a"], ["b"]], [["c"], ["d"]]]⟩] :=
  C5_merge_table_cells_inverted_range (fun t _ _ _ _ => t)
    [⟨2, [[["a"], ["b"]], [["c"], ["d"]]]⟩] 0 1 0 0 1 (Or.inl (by decide))

/-! Preview/commit agreement of `search_and_replace` (C3).

Store lemmas first, then: previewing never writes; and when no cell
is visited twice (no merged cells), the committing scan reads every
cell before anything could have overwritten it, so its report equals
the preview's. -/

theorem getD_set_ne (s : List SCell) (i j : Nat) (x : SCell) (h : i ≠ j) :
    (s.set i x).getD j [] = s.getD j [] := by
  rw [List.getD_eq_getElem?_getD, List.getD_eq_getElem?_getD,
    List.getElem?_set_ne h]

theorem getD_set_map_self (s : List SCell) (i : Nat) (g : SCell → SCell)
    (hg : g [] = []) :
    (s.set i (g (s.getD i []))).getD i [] = g (s.getD i []) := by
  by_cases h : i < s.length
  · rw [List.getD_eq_getElem?_getD, List.getElem?_set_self h]
    rfl
  · have hnone : s.getD i [] = [] := by
      rw [List.getD_eq_getElem?_getD, List.getElem?_eq_none (by omega)]
      rfl
    rw [hnone, hg, List.set_eq_of_length_le (by omega), hnone]

theorem srParas_preview_eq (kw rep : String) (i : Nat) (ps : List String) :
    srParas true kw rep i ps = ((srParas false kw rep i ps).1, ps) := by
  induction ps generalizing i with
  | nil => rfl
  | cons t rest ih =>
    simp only [srParas, ih]
    split <;> rfl

theorem srCell_preview_frame (kw rep : String) (ti ri ci : Nat)
    (store : List SCell) (cid : Nat) :
    (srCell true kw rep ti ri ci store cid).2 = store := by
  simp only [srCell]
  split <;> rfl

theorem srCell_agree (kw rep : String) (ti ri ci : Nat) (s s' : List SCell)
    (cid : Nat) (h : s.getD cid [] = s'.getD cid []) :
    (srCell true kw rep ti ri ci s cid).1
      = (srCell false kw rep ti ri ci s' cid).1 := by
  simp only [srCell, h]
  split <;> rfl

theorem srCell_commit_untouched (kw rep : String) (ti ri ci : Nat)
    (s' : List SCell) (cid j : Nat) (hj : j ≠ cid) :
    (srCell false kw rep ti ri ci s' cid).2.getD j [] = s'.getD j [] := by
  simp only [srCell]
  split
  · simp only [Bool.false_eq_true, if_false]
    exact getD_set_ne s' cid j _ (Ne.symm hj)
  · rfl

theorem srRow_preview_frame (kw rep : String) (ti ri : Nat) :
    ∀ (ci : Nat) (row : List Nat) (store : List SCell),
      (srRow true kw rep ti ri ci row store).2 = store := by
  intro ci row
  induction row generalizing ci with
  | nil => intro store; rfl
  | cons cid rest ih =>
    intro store
    simp only [srRow, srCell_preview_frame, ih]

theorem srRow_agree (kw rep : String) (ti ri : Nat) :
    ∀ (ci : Nat) (row : List Nat) (s s' : List SCell),
      row.Nodup → (∀ id ∈ row, s.getD id [] = s'.getD id []) →
      (srRow true kw rep ti ri ci row s).1
          = (srRow false kw rep ti ri ci row s').1
      ∧ ∀ j, j ∉ row →
          (srRow false kw rep ti ri ci row s').2.getD j [] = s'.getD j [] := by
  intro ci row
  induction row generalizing ci with
  | nil => intro s s' _ _; exact ⟨rfl, fun j _ => rfl⟩
  | cons cid rest ih =>
    intro s s' hnd hag
    obtain ⟨hnotin, hnd'⟩ := List.nodup_cons.mp hnd
    have hcid : s.getD cid [] = s'.getD cid [] :=
      hag cid (List.mem_cons_self _ _)
    have hag' : ∀ id ∈ rest,
        s.getD id [] = (srCell false kw rep ti ri ci s' cid).2.getD id [] := by
      intro id hid
      rw [srCell_commit_untouched kw rep ti ri ci s' cid id
        (fun he => hnotin (he ▸ hid))]
      exact hag id (List.mem_cons_of_mem _ hid)
    obtain ⟨ih1, ih2⟩ :=
      ih (ci + 1) s (srCell false kw rep ti ri ci s' cid).2 hnd' hag'
    constructor
    · simp only [srRow, srCell_preview_frame]
      rw [srCell_agree kw rep ti ri ci s s' cid hcid, ih1]
    · intro j hj
      have hj1 : j ≠ cid := fun he => hj (he ▸ List.mem_cons_self _ _)
      have hj2 : j ∉ rest := fun hm => hj (List.mem_cons_of_mem _ hm)
      simp only [srRow]
      rw [ih2 j hj2, srCell_commit_untouched kw rep ti ri ci s' cid j hj1]

theorem srTable_preview_frame (kw rep : String) (ti : Nat) :
    ∀ (ri : Nat) (rows : List (List Nat)) (store : List SCell),
      (srTable true kw rep ti ri rows store).2 = store := by
  intro ri rows
  induction rows generalizing ri with
  | nil => intro store; rfl
  | cons row rest ih =>
    intro store
    simp only [srTable, srRow_preview_frame, ih]

theorem srTable_agree (kw rep : String) (ti : Nat) :
    ∀ (ri : Nat) (rows : List (List Nat)) (s s' : List SCell),
      rows.flatten.Nodup → (∀ id ∈ rows.flatten, s.getD id [] = s'.getD id []) →
      (srTable true kw rep ti ri rows s).1
          = (srTable false kw rep ti ri rows s').1
      ∧ ∀ j, j ∉ rows.flatten →
          (srTable false kw rep ti ri rows s').2.getD j [] = s'.getD j [] := by
  intro ri rows
  induction rows generalizing ri with
  | nil => intro s s' _ _; exact ⟨rfl, fun j _ => rfl⟩
  | cons row rest ih =>
    intro s s' hnd hag
    rw [List.flatten_cons] at hnd
    obtain ⟨hnd1, hnd2, hdisj⟩ := List.nodup_append.mp hnd
    have hagrow : ∀ id ∈ row, s.getD id [] = s'.getD id [] := fun id hid =>
      hag id (by rw [List.flatten_cons]; exact List.mem_append_left _ hid)
    obtain ⟨hr1, hr2⟩ := srRow_agree kw rep ti ri 0 row s s' hnd1 hagrow
    have hag' : ∀ id ∈ rest.flatten,
        s.getD id [] = (srRow false kw rep ti ri 0 row s').2.getD id [] := by
      intro id hid
      rw [hr2 id (fun hin => hdisj hin hid)]
      exact hag id (by rw [List.flatten_cons]; exact List.mem_append_right _ hid)
    obtain ⟨ih1, ih2⟩ :=
      ih (ri + 1) s (srRow false kw rep ti ri 0 row s').2 hnd2 hag'
    constructor
    · simp only [srTable, srRow_preview_frame]
      rw [hr1, ih1]
    · intro j hj
      rw [List.flatten_cons] at hj
      have hj1 : j ∉ row := fun hm => hj (List.mem_append_left _ hm)
      have hj2 : j ∉ rest.flatten := fun hm => hj (List.mem_append_right _ hm)
      simp only [srTable]
      rw [ih2 j hj2, hr2 j hj1]

theorem srTables_preview_frame (kw rep : String) :
    ∀ (ti : Nat) (tbs : List ATable),
      (srTables true kw rep ti tbs).2 = tbs := by
  intro ti tbs
  induction tbs generalizing ti with
  | nil => rfl
  | cons tb rest ih =>
    simp only [srTables, srTableTop, srTable_preview_frame, ih]

theorem srTables_agree (kw rep : String) :
    ∀ (ti : Nat) (tbs : List ATable),
      (∀ tb ∈ tbs, tb.grid.flatten.Nodup) →
      (srTables true kw rep ti tbs).1 = (srTables false kw rep ti tbs).1 := by
  intro ti tbs
  induction tbs generalizing ti with
  | nil => intro _; rfl
  | cons tb rest ih =>
    intro hAF
    have hhere :=
      (srTable_agree kw rep ti 0 tb.grid tb.store tb.store
        (hAF tb (List.mem_cons_self _ _)) (fun _ _ => rfl)).1
    simp only [srTables, srTableTop]
    rw [hhere, ih (ti + 1) (fun t ht => hAF t (List.mem_cons_of_mem _ ht))]

/-- The C3 counterexample document: one table whose single underlying
cell (text "a") spans two grid columns — the layout `merge_table_cells`
produces for a horizontal merge. -/
def c3doc : SDoc := ⟨[], [⟨[["a"]], [[0, 0]]⟩]⟩

/-- C3 counterexample: on a merged cell the program violates the
claim.  Previewing reports the merged cell at both grid positions it
spans ("a" → "b", count 1 at columns 0 and 1), but the committing run
rewrites the cell at the first visit and finds no match at the
second, so it reports only one location: the reports differ. -/
theorem C3_preview_merged_cell :
    (search_and_replace c3doc "a" "b" true).1
        = [SRRes.cell 0 0 0 "a" "b" 1, SRRes.cell 0 0 1 "a" "b" 1] ∧
    (search_and_replace c3doc "a" "b" false).1
        = [SRRes.cell 0 0 0 "a" "b" 1] ∧
    (search_and_replace c3doc "a" "b" true).1
        ≠ (search_and_replace c3doc "a" "b" false).1 := by
  decide

/-- C3 (amended): `search_and_replace(k, r, preview_only=True)` never
changes any paragraph or cell text, for every document; and on every
document without merged cells (each grid position a distinct cell)
it reports exactly the match list — locations, originals,
replacements, per-location counts — of the committing run on an
identical document.  (With merged cells the committing run re-reads
text mutated at an earlier visit of the same cell and can report
fewer locations, as `C3_preview_merged_cell` shows.) -/
theorem C3_preview_amended (doc : SDoc) (kw rep : String) :
    (search_and_replace doc kw rep true).2 = doc ∧
    (aliasFree doc →
      (search_and_replace doc kw rep true).1
        = (search_and_replace doc kw rep false).1) := by
  constructor
  · show (⟨(srParas true kw rep 0 doc.paras).2,
      (srTables true kw rep 0 doc.tables).2⟩ : SDoc) = doc
    rw [srParas_preview_eq, srTables_preview_frame]
  · intro hAF
    show (srParas true kw rep 0 doc.paras).1
          ++ (srTables true kw rep 0 doc.tables).1
        = (srParas false kw rep 0 doc.paras).1
          ++ (srTables false kw rep 0 doc.tables).1
    rw [srParas_preview_eq, srTables_agree kw rep 0 doc.tables hAF]

/-- Witness document for the amended C3: no merged cells. -/
def w3doc : SDoc := ⟨["xax"], [⟨[["a"], ["b"]], [[0, 1]]⟩]⟩

/-- Witness for the amended C3 at a concrete alias-free document. -/
theorem C3_preview_amended_witness :
    (search_and_replace w3doc "a" "b" true).1
      = (search_and_replace w3doc "a" "b" false).1 :=
  (C3_preview_amended w3doc "a" "b").2 (by decide)

/-! Read-only-ness of `search_text` (C10). -/

theorem stParas_frame (kw : String) (i : Nat) (ps : List String) :
    (stParas kw i ps).2 = ps := by
  induction ps generalizing i with
  | nil => rfl
  | cons t rest ih => simp only [stParas, ih]

theorem stRow_frame (kw : String) (ti ri : Nat) :
    ∀ (ci : Nat) (row : List Nat) (store : List SCell),
      (stRow kw ti ri ci row store).2 = store := by
  intro ci row
  induction row generalizing ci with
  | nil => intro store; rfl
  | cons cid rest ih =>
    intro store
    simp only [stRow, ih]

theorem stTable_frame (kw : String) (ti : Nat) :
    ∀ (ri : Nat) (rows : List (List Nat)) (store : List SCell),
      (stTable kw ti ri rows store).2 = store := by
  intro ri rows
  induction rows generalizing ri with
  | nil => intro store; rfl
  | cons row rest ih =>
    intro store
    simp only [stTable, stRow_frame, ih]

theorem stTables_frame (kw : String) :
    ∀ (ti : Nat) (tbs : List ATable), (stTables kw ti tbs).2 = tbs := by
  intro ti tbs
  induction tbs generalizing ti with
  | nil => rfl
  | cons tb rest ih =>
    simp only [stTables, stTableTop, stTable_frame, ih]

/-- C10: `search_text` is read-only — for every document and keyword
the document that comes out of the scan (threaded through every
paragraph, table, row and cell visit) is exactly the document that
went in, whether or not anything matched. -/
theorem C10_search_text_readonly (doc : SDoc) (kw : String) :
    (search_text doc kw).2 = doc := by
  show (⟨(stParas kw 0 doc.paras).2, (stTables kw 0 doc.tables).2⟩ : SDoc) = doc
  rw [stParas_frame, stTables_frame]

/-! The `find_and_replace` count contract (C7). -/

/-- The per-paragraph substitution `find_and_replace` performs. -/
def farStep (f r t : String) : String :=
  if pyContains t f then pyReplace t f r else t

/-- The post-hoc recount: sum, over the paragraphs of `ps` that
contain `f`, of the occurrences of the replacement `r` in the
paragraph's post-replacement text. -/
def farCnt (f r : String) (ps : List String) : Nat :=
  ((ps.filter fun t => pyContains t f).map fun t =>
    pyCount (pyReplace t f r) r).sum

theorem farCnt_append (f r : String) (a b : List String) :
    farCnt f r (a ++ b) = farCnt f r a + farCnt f r b := by
  simp [farCnt, List.filter_append]

theorem farParas_eq (f r : String) (ps : List String) :
    farParas f r ps = (farCnt f r ps, ps.map (farStep f r)) := by
  induction ps with
  | nil => rfl
  | cons t rest ih =>
    cases h : pyContains t f <;>
      simp [farParas, ih, farCnt, farStep, h, List.filter_cons]

theorem farCell_eq (f r : String) (store : List SCell) (cid : Nat) :
    farCell f r store cid
      = (farCnt f r (store.getD cid []),
          store.set cid ((store.getD cid []).map (farStep f r))) := by
  simp only [farCell, farParas_eq]

/-- The paragraph texts of the cells a table scan visits, reading
cell `cid` from `s` — the per-grid-position cell contents in visit
order. -/
def cellsParas (s : List SCell) (ids : List Nat) : List String :=
  (ids.map fun cid => s.getD cid []).flatten

theorem cellsParas_nil (s : List SCell) : cellsParas s [] = [] := rfl

theorem cellsParas_cons (s : List SCell) (cid : Nat) (rest : List Nat) :
    cellsParas s (cid :: rest) = s.getD cid [] ++ cellsParas s rest := by
  simp [cellsParas]

theorem cellsParas_append (s : List SCell) (a b : List Nat) :
    cellsParas s (a ++ b) = cellsParas s a ++ cellsParas s b := by
  simp [cellsParas]

theorem cellsParas_of_pointwise (s s₂ : List SCell) (ids : List Nat)
    (g : String → String)
    (h : ∀ id ∈ ids, s₂.getD id [] = (s.getD id []).map g) :
    cellsParas s₂ ids = (cellsParas s ids).map g := by
  induction ids with
  | nil => rfl
  | cons cid rest ih =>
    rw [cellsParas_cons, cellsParas_cons, List.map_append,
      h cid (List.mem_cons_self _ _),
      ih (fun id hid => h id (List.mem_cons_of_mem _ hid))]

theorem flatten_map_comm {α β γ : Type} (F : α → List β) (g : β → γ)
    (L : List α) :
    (L.map fun x => (F x).map g).flatten = ((L.map F).flatten).map g := by
  induction L with
  | nil => rfl
  | cons a l ih => simp [ih]

/-- One row of cell visits under `find_and_replace`, for a row
without repeated cells whose cells still hold their original (`s`)
content: the count is the post-hoc recount over the visited cells'
paragraphs, and the store afterwards holds the substituted cells at
the visited indices and is untouched elsewhere. -/
theorem farRow_nodup (f r : String) :
    ∀ (ids : List Nat) (s s' : List SCell),
      ids.Nodup → (∀ id ∈ ids, s.getD id [] = s'.getD id []) →
      (farRow f r ids s').1 = farCnt f r (cellsParas s ids)
      ∧ ∀ j, (farRow f r ids s').2.getD j []
          = if j ∈ ids then (s.getD j []).map (farStep f r) else s'.getD j [] := by
  intro ids
  induction ids with
  | nil =>
    intro s s' _ _
    refine ⟨rfl, fun j => ?_⟩
    simp [farRow]
  | cons cid rest ih =>
    intro s s' hnd hag
    obtain ⟨hnotin, hnd'⟩ := List.nodup_cons.mp hnd
    have hcid : s.getD cid [] = s'.getD cid [] :=
      hag cid (List.mem_cons_self _ _)
    have hag' : ∀ id ∈ rest, s.getD id []
        = (s'.set cid ((s'.getD cid []).map (farStep f r))).getD id [] := by
      intro id hid
      rw [getD_set_ne _ _ _ _ (fun he => hnotin (by rw [he]; exact hid))]
      exact hag id (List.mem_cons_of_mem _ hid)
    obtain ⟨ih1, ih2⟩ :=
      ih s (s'.set cid ((s'.getD cid []).map (farStep f r))) hnd' hag'
    constructor
    · simp only [farRow, farCell_eq]
      rw [ih1, cellsParas_cons, farCnt_append, ← hcid]
    · intro j
      simp only [farRow, farCell_eq]
      rw [ih2 j]
      by_cases hj : j ∈ cid :: rest
      · rw [if_pos hj]
        rcases List.mem_cons.mp hj with he | hm
        · subst he
          rw [if_neg hnotin,
            getD_set_map_self s' _ (List.map (farStep f r)) rfl, hcid]
        · rw [if_pos hm]
      · have hj1 : j ≠ cid := fun he => hj (he ▸ List.mem_cons_self _ _)
        have hj2 : j ∉ rest := fun hm => hj (List.mem_cons_of_mem _ hm)
        rw [if_neg hj, if_neg hj2, getD_set_ne _ _ _ _ (Ne.symm hj1)]

/-- All rows of a table under `find_and_replace`, for a grid without
merged cells. -/
theorem farTable_nodup (f r : String) :
    ∀ (rows : List (List Nat)) (s s' : List SCell),
      rows.flatten.Nodup →
      (∀ id ∈ rows.flatten, s.getD id [] = s'.getD id []) →
      (farTable f r rows s').1 = farCnt f r (cellsParas s rows.flatten)
      ∧ ∀ j, (farTable f r rows s').2.getD j []
          = if j ∈ rows.flatten then (s.getD j []).map (farStep f r)
            else s'.getD j [] := by
  intro rows
  induction rows with
  | nil =>
    intro s s' _ _
    refine ⟨rfl, fun j => ?_⟩
    simp [farTable]
  | cons row rest ih =>
    intro s s' hnd hag
    rw [List.flatten_cons] at hnd
    obtain ⟨hnd1, hnd2, hdisj⟩ := List.nodup_append.mp hnd
    have hagrow : ∀ id ∈ row, s.getD id [] = s'.getD id [] := fun id hid =>
      hag id (by rw [List.flatten_cons]; exact List.mem_append_left _ hid)
    obtain ⟨hr1, hr2⟩ := farRow_nodup f r row s s' hnd1 hagrow
    have hag' : ∀ id ∈ rest.flatten,
        s.getD id [] = (farRow f r row s').2.getD id [] := by
      intro id hid
      rw [hr2 id, if_neg (fun hin => hdisj hin hid)]
      exact hag id (by rw [List.flatten_cons]; exact List.mem_append_right _ hid)
    obtain ⟨ih1, ih2⟩ := ih s (farRow f r row s').2 hnd2 hag'
    constructor
    · simp only [farTable]
      rw [hr1, ih1, List.flatten_cons, cellsParas_append, farCnt_append]
    · intro j
      simp only [farTable]
      rw [ih2 j, List.flatten_cons]
      by_cases hjr : j ∈ rest.flatten
      · rw [if_pos hjr, if_pos (List.mem_append_right _ hjr)]
      · rw [if_neg hjr, hr2 j]
        by_cases hjw : j ∈ row
        · rw [if_pos hjw, if_pos (List.mem_append_left _ hjw)]
        · rw [if_neg hjw,
            if_neg (fun hm => (List.mem_append.mp hm).elim hjw hjr)]

/-- All table-cell paragraph texts of the document, one occurrence
per grid position, in visit order. -/
def gridCellParas (doc : SDoc) : List String :=
  (doc.tables.map fun tb => cellsParas tb.store tb.grid.flatten).flatten

/-- The table phase of `find_and_replace` on an alias-free table
list: total count, grids preserved, and every visited cell
substituted. -/
theorem farTables_nodup (f r : String) :
    ∀ (tbs : List ATable), (∀ tb ∈ tbs, tb.grid.flatten.Nodup) →
      (farTables f r tbs).1
          = farCnt f r ((tbs.map fun tb => cellsParas tb.store tb.grid.flatten).flatten)
      ∧ (farTables f r tbs).2.map ATable.grid = tbs.map ATable.grid
      ∧ (farTables f r tbs).2.map (fun tb => cellsParas tb.store tb.grid.flatten)
          = tbs.map fun tb =>
              (cellsParas tb.store tb.grid.flatten).map (farStep f r) := by
  intro tbs
  induction tbs with
  | nil => intro _; exact ⟨rfl, rfl, rfl⟩
  | cons tb rest ih =>
    intro hAF
    have hnd := hAF tb (List.mem_cons_self _ _)
    obtain ⟨h1, h2⟩ := farTable_nodup f r tb.grid tb.store tb.store hnd
      (fun _ _ => rfl)
    obtain ⟨ih1, ih2, ih3⟩ := ih (fun t ht => hAF t (List.mem_cons_of_mem _ ht))
    refine ⟨?_, ?_, ?_⟩
    · simp only [farTables, farTableTop, List.map_cons, List.flatten_cons,
        farCnt_append]
      rw [h1, ih1]
    · simp only [farTables, farTableTop, List.map_cons]
      rw [ih2]
    · simp only [farTables, farTableTop, List.map_cons]
      rw [ih3]
      have hcells : cellsParas (farTable f r tb.grid tb.store).2 tb.grid.flatten
          = (cellsParas tb.store tb.grid.flatten).map (farStep f r) :=
        cellsParas_of_pointwise tb.store _ tb.grid.flatten (farStep f r)
          (fun cid hcid => by rw [h2 cid, if_pos hcid])
      rw [hcells]

/-- The C7 counterexample document: one table whose single underlying
cell (one paragraph "a") spans two grid columns. -/
def c7doc : SDoc := ⟨[], [⟨[["a"]], [[0, 0]]⟩]⟩

/-- C7 counterexample: on a merged cell the program violates the
claim.  The cell's paragraph "a" is visited at both grid positions:
the first visit replaces "a" → "ab" and counts 1, the second replaces
again ("ab" → "abb") and counts 1 more.  The code returns count 2 and
final text "abb", while the claim's single substitution gives "ab"
and its post-hoc formula gives count 1. -/
theorem C7_merged_cell :
    (find_and_replace c7doc "a" "ab").1 = 2 ∧
    (find_and_replace c7doc "a" "ab").2.tables.map ATable.store = [[["abb"]]] ∧
    pyReplace "a" "a" "ab" = "ab" ∧
    pyCount (pyReplace "a" "a" "ab") "ab" = 1 := by
  decide

/-- C7 (amended): on every document without merged cells,
`find_and_replace(find, replace)` substitutes in every body paragraph
and every table-cell paragraph (one visit per grid position), and the
total it returns is the post-hoc recount: the sum, over the
paragraphs that contained `find`, of the occurrences of the
REPLACEMENT string in each paragraph's post-replacement text.  (On a
merged cell the scan substitutes and recounts once per spanned grid
position, inflating text and total, as `C7_merged_cell` shows.) -/
theorem C7_find_and_replace_count (doc : SDoc) (f r : String)
    (h : aliasFree doc) :
    (find_and_replace doc f r).1
        = farCnt f r doc.paras + farCnt f r (gridCellParas doc) ∧
    (find_and_replace doc f r).2.paras = doc.paras.map (farStep f r) ∧
    (find_and_replace doc f r).2.tables.map ATable.grid
        = doc.tables.map ATable.grid ∧
    gridCellParas (find_and_replace doc f r).2
        = (gridCellParas doc).map (farStep f r) := by
  obtain ⟨h1, h2, h3⟩ := farTables_nodup f r doc.tables h
  refine ⟨?_, ?_, ?_, ?_⟩
  · show (farParas f r doc.paras).1 + (farTables f r doc.tables).1 = _
    rw [farParas_eq, h1]
    rfl
  · show (farParas f r doc.paras).2 = _
    rw [farParas_eq]
  · show (farTables f r doc.tables).2.map ATable.grid = _
    exact h2
  · show ((farTables f r doc.tables).2.map
        fun tb => cellsParas tb.store tb.grid.flatten).flatten = _
    rw [h3]
    exact flatten_map_comm (fun tb => cellsParas tb.store tb.grid.flatten)
      (farStep f r) doc.tables

/-- Witness document for the amended C7: no merged cells. -/
def w7doc : SDoc := ⟨["a"], [⟨[["a"], ["c"]], [[0, 1]]⟩]⟩

/-- Witness for the amended C7 at a concrete alias-free document. -/
theorem C7_find_and_replace_count_witness :
    (find_and_replace w7doc "a" "ab").1
      = farCnt "a" "ab" w7doc.paras + farCnt "a" "ab" (gridCellParas w7doc) :=
  (C7_find_and_replace_count w7doc "a" "ab" (by decide)).1

/-! The heading-boundary rule of `replace_section` (C9). -/

theorem lexLe_refl (l : List Char) : lexLe l l = true := by
  induction l with
  | nil => rfl
  | cons a as ih => simp [lexLe, ih]

theorem pyLe_refl (s : String) : pyLe s s = true := lexLe_refl s.data

/-- The `or same style` disjunct of content.py line 408 is redundant:
the loop's boundary test is exactly "style name starts with Heading
and is lexicographically at most the title's style name". -/
theorem isBoundary_eq (ts : String) (p : Para) :
    isBoundary ts p
      = (pyStartsWith p.styleName "Heading" && pyLe p.styleName ts) := by
  by_cases h : p.styleName = ts
  · simp [isBoundary, h, pyLe_refl]
  · have hb : (p.styleName == ts) = false := beq_eq_false_iff_ne.mpr h
    simp [isBoundary, hb]

theorem endScan_eq (ts : String) (l : List Para) (n : Nat) :
    endScan ts l n = n + l.findIdx (isBoundary ts) := by
  induction l generalizing n with
  | nil => simp [endScan]
  | cons p rest ih =>
    simp only [endScan, List.findIdx_cons]
    cases h : isBoundary ts p
    · simp [h, ih]
      omega
    · simp [h]

/-- C9: the replaceable range of `replace_section` ends at the first
paragraph after the anchor whose style name begins with "Heading" and
is lexicographically `<=` the anchor's style name; when no such
paragraph exists it extends to the end of the document.  The final
conjunct identifies the loop's test with the claim's predicate
(the code's extra `style == title_style` disjunct adds nothing). -/
theorem C9_section_end_rule (paras : List Para) (ti : Nat)
    (hti : ti < paras.length) :
    let ts := (paras.getD ti ⟨"", ""⟩).styleName
    let e := endIndexRS paras ti
    ti < e ∧ e ≤ paras.length ∧
    (∀ j, ti < j → j < e → isBoundary ts (paras.getD j ⟨"", ""⟩) = false) ∧
    (e < paras.length → isBoundary ts (paras.getD e ⟨"", ""⟩) = true) ∧
    (∀ p, isBoundary ts p
        = (pyStartsWith p.styleName "Heading" && pyLe p.styleName ts)) := by
  intro ts e
  have he : e = (ti + 1) + (paras.drop (ti + 1)).findIdx (isBoundary ts) := by
    simp only [e, endIndexRS, endScan_eq]
  have hdl : (paras.drop (ti + 1)).length = paras.length - (ti + 1) :=
    List.length_drop _ _
  refine ⟨by omega, ?_, ?_, ?_, fun p => isBoundary_eq ts p⟩
  · have := @List.findIdx_le_length Para (isBoundary ts) (paras.drop (ti + 1))
    omega
  · intro j hj1 hj2
    have hjo : j - (ti + 1) < (paras.drop (ti + 1)).findIdx (isBoundary ts) := by
      omega
    have hjl : j < paras.length := by
      have := @List.findIdx_le_length Para (isBoundary ts) (paras.drop (ti + 1))
      omega
    have hjlen : j - (ti + 1) < (paras.drop (ti + 1)).length := by omega
    have h1 := List.not_of_lt_findIdx hjo
    have h2 : (paras.drop (ti + 1))[j - (ti + 1)] = paras[j] := by
      rw [List.getElem_drop]
      congr 1
      omega
    rw [h2] at h1
    rwa [List.getD_eq_getElem?_getD, List.getElem?_eq_getElem hjl]
  · intro hel
    have hfl : (paras.drop (ti + 1)).findIdx (isBoundary ts)
        < (paras.drop (ti + 1)).length := by omega
    have h1 := @List.findIdx_getElem Para (isBoundary ts) (paras.drop (ti + 1)) hfl
    have h2 : (paras.drop (ti + 1))[(paras.drop (ti + 1)).findIdx (isBoundary ts)]
        = paras[e] := by
      rw [List.getElem_drop]
      congr 1
      omega
    rw [h2] at h1
    rwa [List.getD_eq_getElem?_getD, List.getElem?_eq_getElem hel]

/-- Witness for C9 on the C1 scenario document, anchor index 0. -/
theorem C9_section_end_rule_witness :
    0 < endIndexRS c1doc 0 ∧ endIndexRS c1doc 0 ≤ c1doc.length :=
  ⟨(C9_section_end_rule c1doc 0 (by decide)).1,
    (C9_section_end_rule c1doc 0 (by decide)).2.1⟩

/-! Table splitting (C2). -/

/-- The C2 failing input: a paragraph followed by one table of three
2-cell rows, with the usual `w:tblPr` children (as `add_table` with
the "Table Grid" style produces: `tblStyle`, `tblW`, `tblLook`) and
two `w:gridCol` grid children. -/
def c2doc : List Block :=
  [.par ⟨"intro", "Normal"⟩,
   .tbl ⟨[.pr ["tblStyle", "tblW", "tblLook"],
          .grid ["gridCol1", "gridCol2"],
          .tr [["a"], ["b"]], .tr [["c"], ["d"]], .tr [["e"], ["f"]]]⟩]

/-- C2: the claim fails on the code for every valid split, under
either reading of the element-copy call.  Charitable reading
(`copyOk = true`: `child.copy()` yields a copy): the call reports
success, the table count grows by one, the new table immediately
follows the original, the rows split as `row_index + 1` against
`rows - row_index - 1` in order — but the copied property and grid
children sit DIRECTLY under the new `w:tbl`, so the new table has NO
`w:tblPr` and NO `w:tblGrid`: its table-level properties and column
grid were not copied (python-docx raises on accessing them, and the
repo's own `merge_table_cells`/`split_table` fail on this table).
Real lxml reading (`copyOk = false`: `_Element` has no `.copy()`
method): the first copied child raises `AttributeError`, the call
returns the failure message, and the document is unchanged — the
split does not even succeed. -/
theorem C2_split_table_eval :
    ((split_table true c2doc 0 0).1 = SPMsg.split 0 0 ∧
      (tablesOf (split_table true c2doc 0 0).2).length = 2 ∧
      trsOf ((tablesOf (split_table true c2doc 0 0).2).getD 0 ⟨[]⟩)
          = [[["a"], ["b"]]] ∧
      trsOf ((tablesOf (split_table true c2doc 0 0).2).getD 1 ⟨[]⟩)
          = [[["c"], ["d"]], [["e"], ["f"]]] ∧
      firstPr ((tablesOf (split_table true c2doc 0 0).2).getD 1 ⟨[]⟩).children
          = none ∧
      firstGrid ((tablesOf (split_table true c2doc 0 0).2).getD 1 ⟨[]⟩).children
          = none) ∧
    split_table false c2doc 0 0 = (SPMsg.copyFailed, c2doc) := by
  decide

/-! Colour handling of `add_paragraph` (C6). -/

/-- Colour of the first run of the last paragraph. -/
def lastParaRunColor (l : List Para6) : Option (Int × Int × Int) :=
  match l.getLast? with
  | some p =>
    match p.runs with
    | r :: _ => r.color
    | [] => none
  | none => none

/-- Alignment of the last paragraph. -/
def lastParaAlign (l : List Para6) : Option Align :=
  match l.getLast? with
  | some p => p.align
  | none => none

theorem lastParaRunColor_concat (l : List Para6) (p : Para6) :
    lastParaRunColor (l ++ [p])
      = (match p.runs with | r :: _ => r.color | [] => none) := by
  unfold lastParaRunColor
  rw [List.getLast?_concat]

theorem lastParaAlign_concat (l : List Para6) (p : Para6) :
    lastParaAlign (l ++ [p]) = p.align := by
  unfold lastParaAlign
  rw [List.getLast?_concat]

/-- C6 counterexample: the claim says a malformed colour string makes
`add_paragraph` report an error rather than accept the paragraph
without the colour.  With colour `"red"` (no `#`, wrong length) the
guard `color and color.startswith('#') and len(color) == 7` is simply
false, so the colour block is skipped silently: the call returns the
success message and the paragraph is added with no colour. -/
theorem C6_malformed_color_accepted :
    (add_paragraph hexPair [] "Hello" false false false none none
        (some "red") none).1 = APMsg.added ∧
    (add_paragraph hexPair [] "Hello" false false false none none
        (some "red") none).2
      = [{ text := "Hello",
           runs := [{ rtext := "Hello", bold := some false,
                      italic := some false, underline := some false }] }] := by
  decide

/-- C6 (amended): a colour is parsed only under the guard
`color truthy ∧ startswith '#' ∧ len == 7`.  When the guard fails the
colour is silently ignored: the paragraph is appended without colour
and success is reported.  When the guard holds on a non-empty text
and the hex parse fails, the error message is returned but the
paragraph has already been appended (without colour or alignment).
When the guard holds and the hex parse succeeds, the parsed channels
are applied.  `hexFn` is Python's `int(., 16)`, a builtin outside
this repository, universally quantified. -/
theorem C6_color_amended (hexFn : String → Option Int) (doc : List Para6)
    (text : String) (bold italic und : Bool) (fs : Option Int)
    (fn : Option String) (c : Option String) (al : Option Align) :
    let res := add_paragraph hexFn doc text bold italic und fs fn c al
    (colorGate c = false →
      res.1 = APMsg.added ∧ res.2.take doc.length = doc ∧
      res.2.length = doc.length + 1 ∧ lastParaRunColor res.2 = none) ∧
    (colorGate c = true → text.isEmpty = false →
      parseRGB hexFn (c.getD "") = none →
      res.1 = APMsg.failed ∧ res.2.take doc.length = doc ∧
      res.2.length = doc.length + 1 ∧ lastParaRunColor res.2 = none ∧
      lastParaAlign res.2 = none) ∧
    (colorGate c = true → text.isEmpty = false →
      ∀ rgb, parseRGB hexFn (c.getD "") = some rgb →
        res.1 = APMsg.added ∧ lastParaRunColor res.2 = some rgb) := by
  intro res
  have hres0 : res = add_paragraph hexFn doc text bold italic und fs fn c al := rfl
  by_cases htext : text.isEmpty = true
  · have hres : res = (.added, doc ++ [{ text := text, runs := [], align := al }]) := by
      rw [hres0]; simp [add_paragraph, htext]
    refine ⟨fun _ => ?_, fun _ hfe => ?_, fun _ hfe => ?_⟩
    · rw [hres]
      refine ⟨rfl, List.take_left doc _, by simp, ?_⟩
      rw [lastParaRunColor_concat]
    · rw [htext] at hfe; cases hfe
    · rw [htext] at hfe; cases hfe
  · have htext' : text.isEmpty = false := by
      cases hq : text.isEmpty
      · rfl
      · exact absurd hq htext
    by_cases hg : colorGate c = true
    · cases hp : parseRGB hexFn (c.getD "") with
      | none =>
        have hres : res = (.failed,
            doc ++ [{ text := text,
                      runs := [addFmtRun text bold italic und fs fn],
                      align := none }]) := by
          rw [hres0]; simp [add_paragraph, htext', hg, hp]
        refine ⟨fun hgf => ?_, fun _ _ _ => ?_, fun _ _ rgb hrgb => ?_⟩
        · rw [hg] at hgf; cases hgf
        · rw [hres]
          refine ⟨rfl, List.take_left doc _, by simp, ?_, ?_⟩
          · rw [lastParaRunColor_concat]
            show (addFmtRun text bold italic und fs fn).color = none
            unfold addFmtRun
            dsimp only
            split <;> split <;> rfl
          · rw [lastParaAlign_concat]
        · simp at hrgb
      | some rgb0 =>
        have hres : res = (.added,
            doc ++ [{ text := text,
                      runs := [{ addFmtRun text bold italic und fs fn with
                                  color := some rgb0 }],
                      align := al }]) := by
          rw [hres0]; simp [add_paragraph, htext', hg, hp]
        refine ⟨fun hgf => ?_, fun _ _ hpn => ?_, fun _ _ rgb hrgb => ?_⟩
        · rw [hg] at hgf; cases hgf
        · simp at hpn
        · cases hrgb
          rw [hres]
          refine ⟨rfl, ?_⟩
          rw [lastParaRunColor_concat]
    · have hg' : colorGate c = false := by
        cases hq : colorGate c
        · rfl
        · exact absurd hq hg
      have hres : res = (.added,
          doc ++ [{ text := text,
                    runs := [addFmtRun text bold italic und fs fn],
                    align := al }]) := by
        rw [hres0]; simp [add_paragraph, htext', hg']
      refine ⟨fun _ => ?_, fun hgt _ _ => ?_, fun hgt _ _ _ => ?_⟩
      · rw [hres]
        refine ⟨rfl, List.take_left doc _, by simp, ?_⟩
        rw [lastParaRunColor_concat]
        show (addFmtRun text bold italic und fs fn).color = none
        unfold addFmtRun
        dsimp only
        split <;> split <;> rfl
      · rw [hg'] at hgt; cases hgt
      · rw [hg'] at hgt; cases hgt

/-- Witness for C6 (amended): the guard-fails branch at colour
`"red"`, showing success and no colour applied. -/
theorem C6_color_amended_witness :
    (add_paragraph hexPair [] "Hi" true false false none none
        (some "red") none).1 = APMsg.added ∧
    (add_paragraph hexPair [] "Hi" true false false none none
        (some "red") none).2.take 0 = [] ∧
    (add_paragraph hexPair [] "Hi" true false false none none
        (some "red") none).2.length = 0 + 1 ∧
    lastParaRunColor (add_paragraph hexPair [] "Hi" true false false none none
        (some "red") none).2 = none :=
  (C6_color_amended hexPair [] "Hi" true false false none none
      (some "red") none).1 (by decide)

end MCPDoc
